import Mathlib

/-!
Verification development for `spinarak.go`, a concurrent word-count
crawler: a pool of workers fetches URLs from a shared job channel,
counts whitespace-delimited occurrences of a target word on each page,
and sends one `Result` per job over a shared result channel, which the
dispatcher (`main`) drains.

The embedding is shallow:
* `countOccurrences` mirrors the `bufio.Scanner`-based loop of the Go
  function of the same name: `bufio.ScanWords` tokenization, exact
  comparison against the target word, and the scanner's two ways of
  stopping — a token reaching the default `MaxScanTokenSize` (64 KiB)
  aborts the scan with `ErrTooLong` and a truncated count, otherwise
  `scanner.Err()` is the reader's terminal error, returned alongside
  the count accumulated so far;
* `processJob` mirrors the body of the `wordsOnPage` loop for one link
  (HTTP GET, branch on transport failure / non-200 status / success);
* `Step` is a small-step semantics of the channel system of `main`
  after all links have been sent and the job channel closed: workers
  take jobs, finish jobs (pushing exactly one `Result`), exit when the
  closed job channel is drained, and the dispatcher collects results.
-/

namespace Spinarak

/-- The whitespace test used by `bufio.ScanWords` (Go's `isSpace`):
ASCII space, tab, newline, vertical tab, form feed, carriage return,
NEL and NBSP below `0x100`, and the Unicode space code points above. -/
def isSpaceGo (c : Char) : Bool :=
  if c.toNat ≤ 0xFF then
    c.toNat = 0x20 || c.toNat = 0x09 || c.toNat = 0x0A || c.toNat = 0x0B ||
    c.toNat = 0x0C || c.toNat = 0x0D || c.toNat = 0x85 || c.toNat = 0xA0
  else if 0x2000 ≤ c.toNat ∧ c.toNat ≤ 0x200A then true
  else
    c.toNat = 0x1680 || c.toNat = 0x2028 || c.toNat = 0x2029 ||
    c.toNat = 0x202F || c.toNat = 0x205F || c.toNat = 0x3000

/-- Single pass over the stream, accumulating the current (reversed)
run of non-whitespace characters: whitespace closes the run, if any,
and a run still open at end of input is emitted as the final token.
This is the `bufio.ScanWords` tokenization. -/
def wordsAux : List Char → List Char → List (List Char)
  | [], acc => if acc.isEmpty then [] else [acc.reverse]
  | c :: cs, acc =>
      if isSpaceGo c then
        if acc.isEmpty then wordsAux cs [] else acc.reverse :: wordsAux cs []
      else wordsAux cs (c :: acc)

/-- The maximal runs of non-whitespace characters of a stream, in
order: each `Scan` of the `for scanner.Scan()` loop skips leading
whitespace and targets the next such run (see `scanTokens_cons_space` /
`scanTokens_cons_word`). Which of these runs `scanner.Text()` actually
delivers is limited by the token-size cap — see `emittedTokens`. -/
def scanTokens (l : List Char) : List (List Char) :=
  wordsAux l []

/-- `bufio.MaxScanTokenSize` (64 * 1024): the `bufio.Scanner` of
`countOccurrences` uses `bufio.NewScanner`'s default buffer, whose
growth is capped at this size. -/
def maxScanTokenSize : Nat := 65536

/-- The message of `bufio.ErrTooLong`, the error `scanner.Err()`
reports when a token cannot fit the scanner's maximal buffer. -/
def errTooLong : String := "bufio.Scanner: token too long"

/-- A run the scanner cannot emit: once `maxScanTokenSize` bytes of a
token are buffered with no boundary in sight, `Scan`'s buffer-full
check fires before any further read and the scan dies with
`ErrTooLong`. (A reader that returns its final data together with EOF
in one `Read` call can still sneak out a final token of exactly the
cap; we model the buffer-limit check, i.e. readers — like
`strings.Reader` or a buffered HTTP body — that report the terminal
condition on a separate call.) -/
def tooLong (t : List Char) : Bool :=
  decide (maxScanTokenSize ≤ t.length)

/-- The sequence of values `scanner.Text()` takes: the maximal
non-whitespace runs in order, up to but not including the first one
that overflows the scanner's buffer — nothing after it is ever
scanned. -/
def emittedTokens (l : List Char) : List (List Char) :=
  (scanTokens l).takeWhile (fun t => !tooLong t)

/-- The `io.Reader` underneath the scanner: the data it delivers
before terminating, and its terminal condition — `none` for a clean
EOF, `some e` when the read fails with error `e`. What `scanner.Err()`
reports on top of this (the reader's error, or the scanner's own
`ErrTooLong`) is computed in `countOccurrences`. -/
structure GoStream where
  content : List Char
  readErr : Option String
  deriving DecidableEq, Repr

/-- Go `countOccurrences word s`: scan `s` into words, count the ones
equal to `word`, and return the count together with `scanner.Err()`.
If some non-whitespace run of the delivered data reaches
`maxScanTokenSize`, `Scan` stops there: the count covers only the
tokens emitted before that run and `scanner.Err()` is `ErrTooLong`
(this fires while reading data, so it preempts the reader's own
terminal error). Otherwise every token of the delivered data is
counted and `scanner.Err()` is the reader's error if the stream
failed, `nil` (`none`) otherwise. -/
def countOccurrences (word : String) (s : GoStream) : Nat × Option String :=
  if (scanTokens s.content).any tooLong then
    ((emittedTokens s.content).count word.toList, some errTooLong)
  else
    ((scanTokens s.content).count word.toList, s.readErr)

/-- Spec-side tokenizer, for comparison with the scanner loop: split the
stream at every whitespace character and discard the empty pieces that
runs of whitespace and leading/trailing whitespace produce. -/
def specTokens (l : List Char) : List (List Char) :=
  (l.splitOnP isSpaceGo).filter (fun t => !t.isEmpty)

/-- A Go `error` value as this program can produce it: the error of a
failed `http.Get` (transport/connection failure), an
`errors.New` value (used for the non-200 status message), or the
reader error reported by `bufio.Scanner` while tokenizing a body. -/
inductive GoErr where
  | httpErr (msg : String)
  | errNew (msg : String)
  | scanErr (msg : String)
  deriving DecidableEq, Repr

/-- What `http.Get link` comes back with: either a transport error
(`err != nil`), or a response carrying a status code and a body
stream. -/
inductive FetchOutcome where
  | fail (msg : String)
  | resp (statusCode : Nat) (body : GoStream)
  deriving DecidableEq, Repr

/-- The Go `Result` struct: link inspected, occurrence count, and the
encountered error if there was one (otherwise `nil`/`none`). -/
structure Result where
  link : String
  count : Nat
  err : Option GoErr
  deriving DecidableEq, Repr

/-- One iteration of the `wordsOnPage` loop body, for the link taken
from the channel: `http.Get`, then either the transport-error Result,
the non-200 Result (`errors.New "Did not receive 200 OK"`), or the
count/error pair returned by `countOccurrences` on the body. The
`fetch` argument is the environment: what the network answers for each
link. -/
def processJob (word : String) (fetch : String → FetchOutcome) (link : String) :
    Result :=
  match fetch link with
  | .fail e => ⟨link, 0, some (.httpErr e)⟩
  | .resp statusCode body =>
      if statusCode ≠ 200 then ⟨link, 0, some (.errNew "Did not receive 200 OK")⟩
      else
        let r := countOccurrences word body
        ⟨link, r.1, r.2.map .scanErr⟩

/-- The status of one `wordsOnPage` goroutine: blocked on
`for link := range links` waiting for a job, or between having received
`link` and having sent its Result. -/
inductive WStatus where
  | idle
  | busy (link : String)
  deriving DecidableEq, Repr

/-- The channel system of `main` at the point where all links have been
sent on `link_chan` and the channel has been closed (lines 133-138):
`pending` is the buffered content of `link_chan`, `workers` the pool of
goroutines, `inChan` the buffered content of `result_chan`, and
`collected` the Results the receive loop of `main` has read so far. -/
structure SysState where
  pending : List String
  workers : List WStatus
  inChan : List Result
  collected : List Result
  deriving DecidableEq, Repr

/-- The state right after `main` has spun up `wc` workers, sent every
link, and closed `link_chan`. -/
def initState (links : List String) (wc : Nat) : SysState :=
  ⟨links, List.replicate wc .idle, [], []⟩

/-- Interleaving semantics of the system: a worker receives a job from
the closed-but-nonempty job channel, a worker finishes its job and
sends exactly one Result, a worker's `range` loop exits because the
closed job channel is drained, or `main`'s receive loop takes the next
buffered Result. -/
inductive Step (word : String) (fetch : String → FetchOutcome) :
    SysState → SysState → Prop
  | take (l : String) (rest : List String) (ws1 ws2 : List WStatus)
      (inC coll : List Result) :
      Step word fetch
        ⟨l :: rest, ws1 ++ .idle :: ws2, inC, coll⟩
        ⟨rest, ws1 ++ .busy l :: ws2, inC, coll⟩
  | finish (pend : List String) (ws1 ws2 : List WStatus) (l : String)
      (inC coll : List Result) :
      Step word fetch
        ⟨pend, ws1 ++ .busy l :: ws2, inC, coll⟩
        ⟨pend, ws1 ++ .idle :: ws2, inC ++ [processJob word fetch l], coll⟩
  | exitw (ws1 ws2 : List WStatus) (inC coll : List Result) :
      Step word fetch
        ⟨[], ws1 ++ .idle :: ws2, inC, coll⟩
        ⟨[], ws1 ++ ws2, inC, coll⟩
  | collect (pend : List String) (ws : List WStatus) (r : Result)
      (rest coll : List Result) :
      Step word fetch
        ⟨pend, ws, r :: rest, coll⟩
        ⟨pend, ws, rest, coll ++ [r]⟩

/-- Reachability from the post-close state of `main`. -/
def Reachable (word : String) (fetch : String → FetchOutcome)
    (links : List String) (wc : Nat) (s : SysState) : Prop :=
  Relation.ReflTransGen (Step word fetch) (initState links wc) s

/-- A state from which no step is possible: every worker goroutine has
returned and `main` has drained `result_chan` as far as it ever can. -/
def Terminal (word : String) (fetch : String → FetchOutcome) (s : SysState) : Prop :=
  ∀ t, ¬ Step word fetch s t

/-- The links currently being processed by busy workers. -/
def busyLinks : List WStatus → List String
  | [] => []
  | .idle :: ws => busyLinks ws
  | .busy l :: ws => l :: busyLinks ws

/-- Jobs that have not yet produced a Result: held by a busy worker or
still buffered in the job channel. -/
def outstanding (s : SysState) : List String :=
  busyLinks s.workers ++ s.pending

/-- Accounting multiset: results already collected, results buffered in
`result_chan`, and the results the outstanding jobs will produce. -/
def ledger (word : String) (fetch : String → FetchOutcome) (s : SysState) :
    Multiset Result :=
  (s.collected : Multiset Result) + (s.inChan : Multiset Result) +
    (((outstanding s).map (processJob word fetch) : List Result) : Multiset Result)

/-- Termination measure for the step relation. -/
def wWeight : WStatus → Nat
  | .idle => 1
  | .busy _ => 3

/-- Every step strictly decreases this natural number. -/
def sysMeasure (s : SysState) : Nat :=
  3 * s.pending.length + (s.workers.map wWeight).sum + s.inChan.length

/-- Capacity of `link_chan` as `main` creates it: `len(links)`. -/
def linkChanCap (links : List String) : Nat := links.length

/-- Capacity of `result_chan` as `main` creates it: `len(links)`. -/
def resultChanCap (links : List String) : Nat := links.length

/-- Helper to build a `GoStream` from a string literal with a clean EOF. -/
def okStream (s : String) : GoStream := ⟨s.toList, none⟩

/-- Sample environment: every GET fails at the transport level. -/
def fetchDown : String → FetchOutcome := fun _ => .fail "connection refused"

/-- Sample environment: every GET comes back `404`. -/
def fetch404 : String → FetchOutcome := fun _ => .resp 404 (okStream "not found")

/-- Sample environment: every GET returns `200` but the body read fails
after delivering one occurrence of `cat`. -/
def fetchScanFail : String → FetchOutcome :=
  fun _ => .resp 200 ⟨"cat".toList, some "read failure"⟩

/-- The Result `wordsOnPage` produces for a link under `fetchDown`. -/
def resDown (link : String) : Result := ⟨link, 0, some (.httpErr "connection refused")⟩

/-- A whitespace-free run of `n` letters, used to build streams whose
token overflows the scanner's buffer. -/
def aRun (n : Nat) : List Char := List.replicate n 'a'

lemma scanTokens_nil : scanTokens [] = [] := rfl

lemma scanTokens_cons_space {c : Char} (cs : List Char) (hc : isSpaceGo c = true) :
    scanTokens (c :: cs) = scanTokens cs := by
  simp [scanTokens, wordsAux, hc]

lemma wordsAux_acc_ne (cs : List Char) (acc : List Char) (hacc : acc ≠ []) :
    wordsAux cs acc =
      (acc.reverse ++ cs.takeWhile (fun x => !isSpaceGo x)) ::
        wordsAux (cs.dropWhile (fun x => !isSpaceGo x)) [] := by
  induction cs generalizing acc with
  | nil =>
      simp [wordsAux, List.isEmpty_iff, hacc]
  | cons d ds ih =>
      by_cases hd : isSpaceGo d
      · simp [wordsAux, hd, List.isEmpty_iff, hacc, List.takeWhile_cons,
          List.dropWhile_cons]
      · rw [List.takeWhile_cons, List.dropWhile_cons]
        simp only [wordsAux, if_neg hd, ih (d :: acc) (List.cons_ne_nil d acc),
          Bool.not_eq_true', hd, if_false]
        simp [hd]

lemma scanTokens_cons_word {c : Char} (cs : List Char) (hc : isSpaceGo c = false) :
    scanTokens (c :: cs) =
      (c :: cs.takeWhile (fun x => !isSpaceGo x)) ::
        scanTokens (cs.dropWhile (fun x => !isSpaceGo x)) := by
  simp only [scanTokens, wordsAux, hc, Bool.false_eq_true, if_false,
    wordsAux_acc_ne cs [c] (List.cons_ne_nil c [])]
  simp

/-- Induction along the scanner's passes: a property closed under
skipping a whitespace character and under consuming a whole token
holds of every stream. -/
theorem scanTokens_induction (P : List Char → Prop) (h0 : P [])
    (hs : ∀ c cs, isSpaceGo c = true → P cs → P (c :: cs))
    (hw : ∀ c cs, isSpaceGo c = false →
      P (cs.dropWhile (fun x => !isSpaceGo x)) → P (c :: cs)) :
    (l : List Char) → P l
  | [] => h0
  | c :: cs =>
      if hc : isSpaceGo c then
        hs c cs hc (scanTokens_induction P h0 hs hw cs)
      else
        hw c cs (Bool.eq_false_iff.mpr hc)
          (scanTokens_induction P h0 hs hw (cs.dropWhile (fun x => !isSpaceGo x)))
termination_by l => l.length
decreasing_by
  · simp only [List.length_cons]
    omega
  · have h2 : (cs.dropWhile (fun x => !isSpaceGo x)).length ≤ cs.length :=
      (List.dropWhile_sublist _).length_le
    simp only [List.length_cons]
    omega

lemma dropWhile_head_false {α : Type} {p : α → Bool} {l cs : List α} {c : α}
    (h : l.dropWhile p = c :: cs) : p c = false := by
  induction l with
  | nil => simp [List.dropWhile] at h
  | cons x xs ih =>
      rw [List.dropWhile_cons] at h
      by_cases hx : p x
      · rw [if_pos hx] at h
        exact ih h
      · rw [if_neg hx] at h
        cases h
        exact Bool.eq_false_iff.mpr hx

lemma scanTokens_ne_nil_mem (t : List Char) (l : List Char)
    (ht : t ∈ scanTokens l) : t ≠ [] ∧ ∀ c ∈ t, isSpaceGo c = false := by
  induction l using scanTokens_induction with
  | h0 =>
      rw [scanTokens_nil] at ht
      simp at ht
  | hs c cs hc ih =>
      rw [scanTokens_cons_space cs hc] at ht
      exact ih ht
  | hw c cs hc ih =>
      rw [scanTokens_cons_word cs hc] at ht
      rcases List.mem_cons.mp ht with h1 | h2
      · subst h1
        refine ⟨by simp, ?_⟩
        intro x hx
        rcases List.mem_cons.mp hx with rfl | hx2
        · exact hc
        · have := List.mem_takeWhile_imp hx2
          simpa using this
      · exact ih h2

lemma splitOnP_structure {α : Type} [DecidableEq α] (p : α → Bool) (l : List α) :
    l.splitOnP p =
      l.takeWhile (fun c => !p c) ::
        (match l.dropWhile (fun c => !p c) with
          | [] => []
          | _ :: rest => rest.splitOnP p) := by
  induction l with
  | nil => simp [List.splitOnP_nil]
  | cons x xs ih =>
      rw [List.splitOnP_cons]
      by_cases hx : p x
      · rw [if_pos hx]
        rw [List.takeWhile_cons, List.dropWhile_cons]
        simp [hx]
      · rw [if_neg hx, ih]
        rw [List.takeWhile_cons, List.dropWhile_cons]
        simp [hx]

lemma scanTokens_eq_specTokens (l : List Char) : scanTokens l = specTokens l := by
  induction l using scanTokens_induction with
  | h0 =>
      rw [scanTokens_nil]
      simp [specTokens, List.splitOnP_nil]
  | hs c cs hc ih =>
      rw [scanTokens_cons_space cs hc, ih]
      unfold specTokens
      rw [List.splitOnP_cons, if_pos hc]
      simp
  | hw c cs hc ih =>
      have hc' : isSpaceGo c = false := hc
      rw [scanTokens_cons_word cs hc', ih]
      unfold specTokens
      rw [List.splitOnP_cons, if_neg (by simp [hc'])]
      rw [splitOnP_structure isSpaceGo cs]
      rcases hdw : cs.dropWhile (fun x => !isSpaceGo x) with _ | ⟨d, rest⟩
      · simp [hdw, List.splitOnP_nil]
      · have hd : isSpaceGo d = true := by
          have := dropWhile_head_false hdw
          simpa using this
        rw [List.splitOnP_cons, if_pos hd]
        simp

lemma aRun_succ (n : Nat) : aRun (n + 1) = 'a' :: aRun n := by
  simp [aRun, List.replicate_succ]

lemma aRun_length (n : Nat) : (aRun n).length = n := by
  simp [aRun]

lemma takeWhile_aRun_sep (m : Nat) (r : List Char) :
    (aRun m ++ ' ' :: r).takeWhile (fun x => !isSpaceGo x) = aRun m := by
  induction m with
  | zero =>
      have hsp : isSpaceGo ' ' = true := by decide
      simp [aRun, List.takeWhile_cons, hsp]
  | succ k ih =>
      have ha : isSpaceGo 'a' = false := by decide
      rw [aRun_succ, List.cons_append, List.takeWhile_cons]
      simp [ha, ih]

lemma dropWhile_aRun_sep (m : Nat) (r : List Char) :
    (aRun m ++ ' ' :: r).dropWhile (fun x => !isSpaceGo x) = ' ' :: r := by
  induction m with
  | zero =>
      have hsp : isSpaceGo ' ' = true := by decide
      simp [aRun, List.dropWhile_cons, hsp]
  | succ k ih =>
      have ha : isSpaceGo 'a' = false := by decide
      rw [aRun_succ, List.cons_append, List.dropWhile_cons]
      simp [ha, ih]

lemma takeWhile_aRun (m : Nat) :
    (aRun m).takeWhile (fun x => !isSpaceGo x) = aRun m := by
  induction m with
  | zero => simp [aRun]
  | succ k ih =>
      have ha : isSpaceGo 'a' = false := by decide
      rw [aRun_succ, List.takeWhile_cons]
      simp [ha, ih]

lemma dropWhile_aRun (m : Nat) :
    (aRun m).dropWhile (fun x => !isSpaceGo x) = [] := by
  induction m with
  | zero => simp [aRun]
  | succ k ih =>
      have ha : isSpaceGo 'a' = false := by decide
      rw [aRun_succ, List.dropWhile_cons]
      simp [ha, ih]

lemma scanTokens_aRun_sep (m : Nat) (r : List Char) :
    scanTokens (aRun (m + 1) ++ ' ' :: r) = aRun (m + 1) :: scanTokens r := by
  have ha : isSpaceGo 'a' = false := by decide
  have hsp : isSpaceGo ' ' = true := by decide
  rw [aRun_succ, List.cons_append, scanTokens_cons_word _ ha,
    takeWhile_aRun_sep, dropWhile_aRun_sep, scanTokens_cons_space r hsp,
    ← aRun_succ]

lemma scanTokens_aRun (m : Nat) :
    scanTokens (aRun (m + 1)) = [aRun (m + 1)] := by
  have ha : isSpaceGo 'a' = false := by decide
  rw [aRun_succ, scanTokens_cons_word _ ha, takeWhile_aRun, dropWhile_aRun,
    scanTokens_nil, ← aRun_succ]

lemma maxScanTokenSize_succ : maxScanTokenSize = 65535 + 1 := by
  norm_num [maxScanTokenSize]

lemma scanTokens_big_sep (r : List Char) :
    scanTokens (aRun maxScanTokenSize ++ ' ' :: r) =
      aRun maxScanTokenSize :: scanTokens r := by
  rw [maxScanTokenSize_succ]
  exact scanTokens_aRun_sep 65535 r

lemma scanTokens_big :
    scanTokens (aRun maxScanTokenSize) = [aRun maxScanTokenSize] := by
  rw [maxScanTokenSize_succ]
  exact scanTokens_aRun 65535

lemma tooLong_big : tooLong (aRun maxScanTokenSize) = true := by
  simp [tooLong, aRun_length]

lemma big_ne_cat : aRun maxScanTokenSize ≠ ['c', 'a', 't'] := by
  intro h
  have hlen := congrArg List.length h
  rw [aRun_length] at hlen
  simp [maxScanTokenSize] at hlen

lemma countOccurrences_of_no_tooLong {word : String} {content : List Char}
    {e : Option String} (h : (scanTokens content).any tooLong = false) :
    countOccurrences word ⟨content, e⟩ =
      ((scanTokens content).count word.toList, e) := by
  unfold countOccurrences
  rw [h]
  simp

lemma countOccurrences_of_tooLong {word : String} {content : List Char}
    {e : Option String} (h : (scanTokens content).any tooLong = true) :
    countOccurrences word ⟨content, e⟩ =
      ((emittedTokens content).count word.toList, some errTooLong) := by
  unfold countOccurrences
  rw [h]
  simp

lemma countOccurrences_big_sep (word : String) (e : Option String)
    (r : List Char) :
    countOccurrences word ⟨aRun maxScanTokenSize ++ ' ' :: r, e⟩ =
      (0, some errTooLong) := by
  have hany : (scanTokens (aRun maxScanTokenSize ++ ' ' :: r)).any tooLong = true := by
    rw [scanTokens_big_sep]
    simp [tooLong_big]
  rw [countOccurrences_of_tooLong hany]
  unfold emittedTokens
  rw [scanTokens_big_sep, List.takeWhile_cons, tooLong_big]
  simp

lemma busyLinks_append (a b : List WStatus) :
    busyLinks (a ++ b) = busyLinks a ++ busyLinks b := by
  induction a with
  | nil => simp [busyLinks]
  | cons w ws ih => cases w <;> simp [busyLinks, ih]

lemma busyLinks_replicate_idle (n : Nat) :
    busyLinks (List.replicate n .idle) = [] := by
  induction n with
  | zero => simp [busyLinks]
  | succ k ih => simpa [List.replicate_succ, busyLinks] using ih

lemma ledger_step {word : String} {fetch : String → FetchOutcome} {s t : SysState}
    (st : Step word fetch s t) : ledger word fetch t = ledger word fetch s := by
  cases st
  all_goals
    simp only [ledger, outstanding, busyLinks_append, busyLinks, List.map_append,
      List.map_cons, List.map_nil, ← Multiset.coe_add, ← Multiset.cons_coe,
      ← Multiset.singleton_add, Multiset.coe_nil]
  all_goals abel

lemma ledger_reachable {word : String} {fetch : String → FetchOutcome}
    {links : List String} {wc : Nat} {s : SysState}
    (h : Reachable word fetch links wc s) :
    ledger word fetch s =
      ((links.map (processJob word fetch) : List Result) : Multiset Result) := by
  induction h with
  | refl =>
      simp [ledger, initState, outstanding, busyLinks_replicate_idle]
  | tail hab hbc ih =>
      rw [ledger_step hbc, ih]

lemma pending_nil_of_workers_nil {word : String} {fetch : String → FetchOutcome}
    {links : List String} {wc : Nat} {s : SysState} (hwc : 1 ≤ wc)
    (h : Reachable word fetch links wc s) (hw : s.workers = []) :
    s.pending = [] := by
  induction h with
  | refl =>
      exfalso
      simp only [initState] at hw
      have hwc0 : wc = 0 := by simpa using congrArg List.length hw
      omega
  | tail hab hbc ih =>
      cases hbc with
      | take l rest ws1 ws2 inC coll => simp at hw
      | finish pend ws1 ws2 l inC coll => simp at hw
      | exitw ws1 ws2 inC coll => rfl
      | collect pend ws r rest coll => exact ih hw

lemma sysMeasure_step {word : String} {fetch : String → FetchOutcome}
    {s t : SysState} (st : Step word fetch s t) : sysMeasure t < sysMeasure s := by
  cases st <;>
    simp [sysMeasure, wWeight, List.map_append, List.sum_append, List.map_cons,
      List.sum_cons] <;>
    omega

lemma terminal_structure {word : String} {fetch : String → FetchOutcome}
    {links : List String} {wc : Nat} {s : SysState} (hwc : 1 ≤ wc)
    (hr : Reachable word fetch links wc s) (ht : Terminal word fetch s) :
    s.pending = [] ∧ s.workers = [] ∧ s.inChan = [] := by
  obtain ⟨pend, ws, inC, coll⟩ := s
  have hin : inC = [] := by
    cases inC with
    | nil => rfl
    | cons r rest => exact absurd (Step.collect pend ws r rest coll) (ht _)
  subst hin
  have hws : ws = [] := by
    by_contra hne
    obtain ⟨w, hwmem⟩ := List.exists_mem_of_ne_nil ws hne
    obtain ⟨ws1, ws2, rfl⟩ := List.append_of_mem hwmem
    cases w with
    | busy l => exact ht _ (Step.finish pend ws1 ws2 l [] coll)
    | idle =>
        cases pend with
        | nil => exact ht _ (Step.exitw ws1 ws2 [] coll)
        | cons p ps => exact ht _ (Step.take p ps ws1 ws2 [] coll)
  subst hws
  exact ⟨pending_nil_of_workers_nil hwc hr rfl, rfl, rfl⟩

lemma terminal_collected {word : String} {fetch : String → FetchOutcome}
    {links : List String} {wc : Nat} {s : SysState} (hwc : 1 ≤ wc)
    (hr : Reachable word fetch links wc s) (ht : Terminal word fetch s) :
    (s.collected : Multiset Result) =
      ((links.map (processJob word fetch) : List Result) : Multiset Result) := by
  have hl := ledger_reachable hr
  obtain ⟨hp, hw, hi⟩ := terminal_structure hwc hr ht
  rw [ledger, outstanding, hp, hw, hi] at hl
  simpa [busyLinks] using hl

lemma processJob_link (word : String) (fetch : String → FetchOutcome)
    (link : String) : (processJob word fetch link).link = link := by
  unfold processJob
  rcases fetch link with e | ⟨code, body⟩
  · rfl
  · by_cases h : code = 200 <;> simp [h]

lemma mem_busyLinks {l : String} {ws : List WStatus}
    (h : WStatus.busy l ∈ ws) : l ∈ busyLinks ws := by
  induction ws with
  | nil => simp at h
  | cons w rest ih =>
      rcases List.mem_cons.mp h with rfl | h2
      · simp [busyLinks]
      · cases w with
        | idle => simpa [busyLinks] using ih h2
        | busy l2 => exact List.mem_cons_of_mem l2 (ih h2)

lemma length_conservation {word : String} {fetch : String → FetchOutcome}
    {links : List String} {wc : Nat} {s : SysState}
    (hr : Reachable word fetch links wc s) :
    s.collected.length + s.inChan.length +
      ((busyLinks s.workers).length + s.pending.length) = links.length := by
  have h := congrArg Multiset.card (ledger_reachable hr)
  simp only [ledger, outstanding, Multiset.card_add, Multiset.coe_card,
    List.length_append, List.length_map] at h
  omega

lemma rtg_exit_all (word : String) (fetch : String → FetchOutcome) (n : Nat)
    (inC coll : List Result) :
    Relation.ReflTransGen (Step word fetch)
      ⟨[], List.replicate n .idle, inC, coll⟩ ⟨[], [], inC, coll⟩ := by
  induction n with
  | zero => exact .refl
  | succ k ih =>
      exact Relation.ReflTransGen.head
        (Step.exitw [] (List.replicate k .idle) inC coll) ih

lemma terminal_done (word : String) (fetch : String → FetchOutcome)
    (coll : List Result) : Terminal word fetch ⟨[], [], [], coll⟩ := by
  have key : ∀ s0 t, Step word fetch s0 t → s0 ≠ ⟨[], [], [], coll⟩ := by
    intro s0 t st
    cases st <;> simp
  intro t st
  exact key _ t st rfl

lemma reachable_demo_busy :
    Reachable "w" fetchDown ["a"] 1 ⟨[], [WStatus.busy "a"], [], []⟩ :=
  Relation.ReflTransGen.tail .refl (Step.take "a" [] [] [] [] [])

lemma reachable_demo_one :
    Reachable "w" fetchDown ["a"] 1 ⟨[], [], [], [resDown "a"]⟩ :=
  ((reachable_demo_busy.tail (Step.finish [] [] [] "a" [] [])).tail
      (Step.collect [] [.idle] (resDown "a") [] [])).tail
    (Step.exitw [] [] [] [resDown "a"])

lemma reachable_demo_eight :
    Reachable "w" fetchDown ["a"] 8 ⟨[], [], [], [resDown "a"]⟩ := by
  have h1 : Relation.ReflTransGen (Step "w" fetchDown) (initState ["a"] 8)
      ⟨[], List.replicate 8 .idle, [], [resDown "a"]⟩ :=
    ((Relation.ReflTransGen.refl.tail
        (Step.take "a" [] [] (List.replicate 7 .idle) [] [])).tail
      (Step.finish [] [] (List.replicate 7 .idle) "a" [] [])).tail
      (Step.collect [] (List.replicate 8 .idle) (resDown "a") [] [])
  exact Relation.ReflTransGen.trans h1 (rtg_exit_all "w" fetchDown 8 [] [resDown "a"])

/-- C1: in any completed run of the dispatcher — a terminal state
reachable from the post-close state of `main` with at least one
worker — exactly `links.length` Results have been collected, and the
multiset of their `link` fields equals the multiset of submitted
links: a bijection between submitted jobs and returned Results, a
duplicate link submitted twice yielding two Results. -/
theorem C1_results_bijection (word : String) (fetch : String → FetchOutcome)
    (links : List String) (wc : Nat) (s : SysState) (hwc : 1 ≤ wc)
    (hr : Reachable word fetch links wc s) (ht : Terminal word fetch s) :
    s.collected.length = links.length ∧
      (s.collected.map Result.link : Multiset String) = (links : Multiset String) := by
  have hcoll := terminal_collected hwc hr ht
  constructor
  · have hc := congrArg Multiset.card hcoll
    simpa using hc
  · have hm := congrArg (Multiset.map Result.link) hcoll
    rw [Multiset.map_coe, Multiset.map_coe] at hm
    rw [hm]
    congr 1
    rw [List.map_map]
    calc links.map (Result.link ∘ processJob word fetch)
        = links.map id := List.map_congr_left fun a _ => processJob_link word fetch a
      _ = links := List.map_id links

/-- Witness for C1: the one-link run under `fetchDown` collects exactly
one Result carrying the submitted link. -/
theorem C1_results_bijection_witness :
    1 ≤ 1 ∧
      ((SysState.mk [] [] [] [resDown "a"]).collected.length =
          (["a"] : List String).length ∧
        ((SysState.mk [] [] [] [resDown "a"]).collected.map Result.link :
            Multiset String) = ((["a"] : List String) : Multiset String)) :=
  ⟨Nat.le_refl 1,
    C1_results_bijection "w" fetchDown ["a"] 1 ⟨[], [], [], [resDown "a"]⟩
      (Nat.le_refl 1) reachable_demo_one (terminal_done "w" fetchDown [resDown "a"])⟩

/-- C2 counterexample: the claim quantifies over every input stream,
but on a stream whose first token is a 64 KiB (`maxScanTokenSize`)
whitespace-free run followed by ` cat`, the Go function's scanner
aborts with `ErrTooLong`: `countOccurrences` returns count `0` with an
error, while the stream has one token byte-for-byte equal to `cat`. -/
theorem C2_counterexample :
    countOccurrences "cat" ⟨aRun maxScanTokenSize ++ ' ' :: "cat".toList, none⟩ =
        (0, some errTooLong) ∧
      (specTokens (aRun maxScanTokenSize ++ ' ' :: "cat".toList)).count
          "cat".toList = 1 := by
  refine ⟨countOccurrences_big_sep "cat" none "cat".toList, ?_⟩
  rw [← scanTokens_eq_specTokens, scanTokens_big_sep]
  have h1 : scanTokens "cat".toList = ["cat".toList] := by decide
  rw [h1, List.count_cons, List.count_cons, List.count_nil]
  simp [big_ne_cat]

/-- C2 (amended): for every target word and every stream whose
whitespace-delimited tokens are all below `bufio`'s 64 KiB token cap,
`countOccurrences` returns the number of tokens byte-for-byte equal to
the target, where the token list is obtained by splitting at
whitespace and dropping the empty pieces (runs of whitespace act as
one separator, leading/trailing whitespace yields no empty token); in
particular the two cited examples, case sensitivity included. -/
theorem C2_count_within_limit :
    (∀ (word : String) (content : List Char) (e : Option String),
        (scanTokens content).any tooLong = false →
        countOccurrences word ⟨content, e⟩ =
          ((specTokens content).count word.toList, e)) ∧
    countOccurrences "cat" (okStream "a cat sat on a cat mat") = (2, none) ∧
    countOccurrences "Cat" (okStream "cat cat") = (0, none) := by
  refine ⟨?_, by decide, by decide⟩
  intro word content e h
  rw [countOccurrences_of_no_tooLong h, scanTokens_eq_specTokens]

/-- Witness for C2 (amended): the example stream's tokens are all tiny,
and the count matches the spec-side token count. -/
theorem C2_count_within_limit_witness :
    (scanTokens "a cat sat on a cat mat".toList).any tooLong = false ∧
      countOccurrences "cat" ⟨"a cat sat on a cat mat".toList, none⟩ =
        ((specTokens "a cat sat on a cat mat".toList).count "cat".toList, none) :=
  ⟨by decide,
    C2_count_within_limit.1 "cat" "a cat sat on a cat mat".toList none (by decide)⟩

/-- C3 counterexample: the claim promises no error on any target-free
stream, but a clean (EOF-terminated) stream consisting of one 64 KiB
whitespace-free run contains no `cat` token and still makes
`countOccurrences` return a non-nil error, `ErrTooLong`. -/
theorem C3_counterexample :
    ("cat".toList ∉ scanTokens (aRun maxScanTokenSize)) ∧
      countOccurrences "cat" ⟨aRun maxScanTokenSize, none⟩ =
        (0, some errTooLong) := by
  constructor
  · rw [scanTokens_big]
    simp
    exact fun h => big_ne_cat h.symm
  · have hany : (scanTokens (aRun maxScanTokenSize)).any tooLong = true := by
      rw [scanTokens_big]
      simp [tooLong_big]
    rw [countOccurrences_of_tooLong hany]
    unfold emittedTokens
    rw [scanTokens_big, List.takeWhile_cons, tooLong_big]
    simp

/-- C3 (amended): an empty stream yields `(0, nil)`; and any clean
stream whose tokens are all below the 64 KiB cap and in which the
target never occurs as a token yields count `0` and no error. -/
theorem C3_zero_on_empty_or_absent :
    (∀ word : String, countOccurrences word ⟨[], none⟩ = (0, none)) ∧
    (∀ (word : String) (content : List Char),
        (scanTokens content).any tooLong = false →
        word.toList ∉ scanTokens content →
        countOccurrences word ⟨content, none⟩ = (0, none)) := by
  constructor
  · intro word
    simp [countOccurrences, scanTokens_nil]
  · intro word content hsmall h
    rw [countOccurrences_of_no_tooLong hsmall, List.count_eq_zero.mpr h]

/-- Witness for C3 (amended): `cat` is not a token of `a dog`, whose
tokens are tiny, so the count is 0 with no error. -/
theorem C3_zero_on_empty_or_absent_witness :
    ((scanTokens "a dog".toList).any tooLong = false ∧
        "cat".toList ∉ scanTokens "a dog".toList) ∧
      countOccurrences "cat" ⟨"a dog".toList, none⟩ = (0, none) :=
  ⟨⟨by decide, by decide⟩,
    C3_zero_on_empty_or_absent.2 "cat" "a dog".toList (by decide) (by decide)⟩

/-- C4 counterexample: the claim promises the read error together with
the count of matching tokens delivered before the failure, but when
the delivered data opens with a 64 KiB whitespace-free run followed by
` cat`, the scanner aborts with `ErrTooLong` before ever seeing the
read failure: the returned error is `ErrTooLong`, not the read error,
and the count is `0` although one matching token was delivered. -/
theorem C4_counterexample :
    countOccurrences "cat"
        ⟨aRun maxScanTokenSize ++ ' ' :: "cat".toList, some "read failure"⟩ =
        (0, some errTooLong) ∧
      (scanTokens (aRun maxScanTokenSize ++ ' ' :: "cat".toList)).count
          "cat".toList = 1 ∧
      errTooLong ≠ "read failure" := by
  refine ⟨countOccurrences_big_sep "cat" (some "read failure") "cat".toList,
    ?_, by decide⟩
  rw [scanTokens_big_sep]
  have h1 : scanTokens "cat".toList = ["cat".toList] := by decide
  rw [h1, List.count_cons, List.count_cons, List.count_nil]
  simp [big_ne_cat]

/-- C4 (amended): when the stream read fails and every delivered token
is below the 64 KiB cap, `countOccurrences` stops at the failure and
returns the read error together with the count of matching tokens in
the delivered data, and the worker packages this as
`Result{link, partial_count, ScanError}`; when the delivered data
contains a token at the cap, the scan stops even earlier, at that
token, with `ErrTooLong` and the count of the matching tokens emitted
before it — which the worker packages the same way. -/
theorem C4_partial_count_on_scan_error :
    (∀ (word : String) (content : List Char) (e : String),
        (scanTokens content).any tooLong = false →
        countOccurrences word ⟨content, some e⟩ =
          ((specTokens content).count word.toList, some e)) ∧
    (∀ (word : String) (content : List Char) (e : Option String),
        (scanTokens content).any tooLong = true →
        countOccurrences word ⟨content, e⟩ =
          ((emittedTokens content).count word.toList, some errTooLong)) ∧
    (∀ (word link : String) (fetch : String → FetchOutcome)
        (content : List Char) (e : String),
        fetch link = .resp 200 ⟨content, some e⟩ →
        (scanTokens content).any tooLong = false →
        processJob word fetch link =
          ⟨link, (specTokens content).count word.toList, some (.scanErr e)⟩) ∧
    (∀ (word link : String) (fetch : String → FetchOutcome)
        (content : List Char) (e : Option String),
        fetch link = .resp 200 ⟨content, e⟩ →
        (scanTokens content).any tooLong = true →
        processJob word fetch link =
          ⟨link, (emittedTokens content).count word.toList,
            some (.scanErr errTooLong)⟩) := by
  refine ⟨?_, ?_, ?_, ?_⟩
  · intro word content e h
    rw [countOccurrences_of_no_tooLong h, scanTokens_eq_specTokens]
  · intro word content e h
    exact countOccurrences_of_tooLong h
  · intro word link fetch content e hf h
    simp only [processJob, hf]
    rw [countOccurrences_of_no_tooLong h, scanTokens_eq_specTokens]
    simp
  · intro word link fetch content e hf h
    simp only [processJob, hf]
    rw [countOccurrences_of_tooLong h]
    simp

/-- Witness for C4 (amended): a 200 response whose body delivers one
small `cat` token and then fails yields `Result{link, 1, ScanError}`
carrying the read error. -/
theorem C4_partial_count_on_scan_error_witness :
    (fetchScanFail "u" = .resp 200 ⟨"cat".toList, some "read failure"⟩ ∧
        (scanTokens "cat".toList).any tooLong = false) ∧
      processJob "cat" fetchScanFail "u" =
        ⟨"u", (specTokens "cat".toList).count "cat".toList,
          some (.scanErr "read failure")⟩ ∧
      (specTokens "cat".toList).count "cat".toList = 1 :=
  ⟨⟨rfl, by decide⟩,
    C4_partial_count_on_scan_error.2.2.1 "cat" "u" fetchScanFail "cat".toList
      "read failure" rfl (by decide),
    by decide⟩

/-- C5: per job, a transport failure yields
`Result{link, 0, FetchError}`, a non-200 status yields
`Result{link, 0, UnexpectedStatusError}`, and a 200 response yields the
token counter's count and error; in every case the worker then sends
exactly one Result and is back at the channel receive for the next job
(the `finish` step below ends with the worker idle again). -/
theorem C5_worker_branches :
    (∀ (word link e : String) (fetch : String → FetchOutcome),
        fetch link = .fail e →
        processJob word fetch link = ⟨link, 0, some (.httpErr e)⟩) ∧
    (∀ (word link : String) (fetch : String → FetchOutcome) (code : Nat)
        (body : GoStream), fetch link = .resp code body → code ≠ 200 →
        processJob word fetch link =
          ⟨link, 0, some (.errNew "Did not receive 200 OK")⟩) ∧
    (∀ (word link : String) (fetch : String → FetchOutcome) (body : GoStream),
        fetch link = .resp 200 body →
        processJob word fetch link =
          ⟨link, (countOccurrences word body).1,
            (countOccurrences word body).2.map .scanErr⟩) ∧
    (∀ (word : String) (fetch : String → FetchOutcome) (pend : List String)
        (ws1 ws2 : List WStatus) (l : String) (inC coll : List Result),
        Step word fetch ⟨pend, ws1 ++ .busy l :: ws2, inC, coll⟩
          ⟨pend, ws1 ++ .idle :: ws2, inC ++ [processJob word fetch l], coll⟩) := by
  refine ⟨?_, ?_, ?_, ?_⟩
  · intro word link e fetch h
    simp [processJob, h]
  · intro word link fetch code body h hne
    simp [processJob, h, hne]
  · intro word link fetch body h
    simp [processJob, h]
  · intro word fetch pend ws1 ws2 l inC coll
    exact Step.finish pend ws1 ws2 l inC coll

/-- Witness for C5: the three branches evaluated under the three sample
environments. -/
theorem C5_worker_branches_witness :
    fetchDown "u" = .fail "connection refused" ∧
      processJob "w" fetchDown "u" = ⟨"u", 0, some (.httpErr "connection refused")⟩ ∧
      fetch404 "u" = .resp 404 (okStream "not found") ∧ (404 : Nat) ≠ 200 ∧
      processJob "w" fetch404 "u" =
        ⟨"u", 0, some (.errNew "Did not receive 200 OK")⟩ ∧
      fetchScanFail "u" = .resp 200 ⟨"cat".toList, some "read failure"⟩ ∧
      processJob "w" fetchScanFail "u" =
        ⟨"u", (countOccurrences "w" ⟨"cat".toList, some "read failure"⟩).1,
          (countOccurrences "w" ⟨"cat".toList, some "read failure"⟩).2.map
            .scanErr⟩ :=
  ⟨rfl, C5_worker_branches.1 "w" "u" "connection refused" fetchDown rfl,
    rfl, by decide,
    C5_worker_branches.2.1 "w" "u" fetch404 404 (okStream "not found") rfl
      (by decide),
    rfl,
    C5_worker_branches.2.2.1 "w" "u" fetchScanFail
      ⟨"cat".toList, some "read failure"⟩ rfl⟩

/-- C6 counterexample: the claim "if the error field is set then the
count field is 0" fails on the code. Under `fetchScanFail` the body
delivers one `cat` and then the read fails, and `wordsOnPage` sends
`Result{link, count: 1, error: ScanError}` — error set, count nonzero
(this is the partial-count behavior lines 109-110 implement and
spec §4.2 describes). -/
theorem C6_counterexample :
    (processJob "cat" fetchScanFail "u").err.isSome = true ∧
      (processJob "cat" fetchScanFail "u").count ≠ 0 := by
  decide

/-- C6 (amended): if a Result's error is a FetchError or an
UnexpectedStatusError its count is 0; if its error is a ScanError its
count is the number of matching tokens the scanner emitted before it
stopped — all the delivered tokens when the stop is the reader's
failure, or only the tokens before the first over-cap token when the
stop is the scanner's own `ErrTooLong`; if its error is absent its
count is the exact match count of the page body. -/
theorem C6_count_error_invariant (word : String) (fetch : String → FetchOutcome)
    (link : String) :
    ((processJob word fetch link).err = none →
        ∃ body : GoStream, fetch link = .resp 200 body ∧ body.readErr = none ∧
          (scanTokens body.content).any tooLong = false ∧
          (processJob word fetch link).count =
            (scanTokens body.content).count word.toList) ∧
    (∀ e, (processJob word fetch link).err = some (.httpErr e) →
        (processJob word fetch link).count = 0) ∧
    (∀ m, (processJob word fetch link).err = some (.errNew m) →
        (processJob word fetch link).count = 0) ∧
    (∀ e, (processJob word fetch link).err = some (.scanErr e) →
        ∃ body : GoStream, fetch link = .resp 200 body ∧
          (((scanTokens body.content).any tooLong = false ∧
              body.readErr = some e ∧
              (processJob word fetch link).count =
                (scanTokens body.content).count word.toList) ∨
            (e = errTooLong ∧ (scanTokens body.content).any tooLong = true ∧
              (processJob word fetch link).count =
                (emittedTokens body.content).count word.toList))) := by
  rcases hf : fetch link with e0 | ⟨code, content, re⟩
  · refine ⟨?_, ?_, ?_, ?_⟩ <;> simp [processJob, hf]
  · by_cases hc : code = 200
    · subst hc
      by_cases hb : (scanTokens content).any tooLong
      · have hpj : processJob word fetch link =
            ⟨link, (emittedTokens content).count word.toList,
              some (.scanErr errTooLong)⟩ := by
          simp only [processJob, hf]
          rw [countOccurrences_of_tooLong hb]
          simp
        refine ⟨?_, ?_, ?_, ?_⟩
        · intro hnone
          rw [hpj] at hnone
          simp at hnone
        · intro e he
          rw [hpj] at he
          simp at he
        · intro m he
          rw [hpj] at he
          simp at he
        · intro e he
          rw [hpj] at he
          simp only [Option.some.injEq, GoErr.scanErr.injEq] at he
          exact ⟨⟨content, re⟩, rfl, Or.inr ⟨he.symm, hb, by rw [hpj]⟩⟩
      · have hb0 : (scanTokens content).any tooLong = false := by
          simpa using hb
        have hpj : processJob word fetch link =
            ⟨link, (scanTokens content).count word.toList,
              re.map .scanErr⟩ := by
          simp only [processJob, hf]
          rw [countOccurrences_of_no_tooLong hb0]
          simp
        rcases re with _ | e1
        · refine ⟨?_, ?_, ?_, ?_⟩
          · intro _
            exact ⟨⟨content, none⟩, rfl, rfl, hb0, by rw [hpj]⟩
          · intro e he
            rw [hpj] at he
            simp at he
          · intro m he
            rw [hpj] at he
            simp at he
          · intro e he
            rw [hpj] at he
            simp at he
        · refine ⟨?_, ?_, ?_, ?_⟩
          · intro hnone
            rw [hpj] at hnone
            simp at hnone
          · intro e he
            rw [hpj] at he
            simp at he
          · intro m he
            rw [hpj] at he
            simp at he
          · intro e he
            rw [hpj] at he
            simp at he
            exact ⟨⟨content, some e1⟩, rfl,
              Or.inl ⟨hb0, by simp [he], by rw [hpj]⟩⟩
    · have hpj : processJob word fetch link =
          ⟨link, 0, some (.errNew "Did not receive 200 OK")⟩ := by
        simp [processJob, hf, hc]
      refine ⟨?_, ?_, ?_, ?_⟩
      · intro hnone
        rw [hpj] at hnone
        simp at hnone
      · intro e he
        rw [hpj] at he
        simp at he
      · intro m he
        rw [hpj]
      · intro e he
        rw [hpj] at he
        simp at he

/-- Witness for C6 (amended): a FetchError Result has count 0. -/
theorem C6_count_error_invariant_witness :
    (processJob "w" fetchDown "u").err = some (.httpErr "connection refused") ∧
      (processJob "w" fetchDown "u").count = 0 :=
  ⟨rfl, (C6_count_error_invariant "w" fetchDown "u").2.1 "connection refused" rfl⟩

/-- C7: for a fixed batch of links and fixed per-link fetch outcomes,
a completed run with one worker and a completed run with eight workers
collect the same multiset of Results — worker count does not affect
correctness. -/
theorem C7_worker_count_irrelevant (word : String) (fetch : String → FetchOutcome)
    (links : List String) (s1 s8 : SysState)
    (h1 : Reachable word fetch links 1 s1) (ht1 : Terminal word fetch s1)
    (h8 : Reachable word fetch links 8 s8) (ht8 : Terminal word fetch s8) :
    (s1.collected : Multiset Result) = (s8.collected : Multiset Result) := by
  rw [terminal_collected (Nat.le_refl 1) h1 ht1,
    terminal_collected (by omega) h8 ht8]

/-- Witness for C7: the one-link batch completed with 1 worker and with
8 workers. -/
theorem C7_worker_count_irrelevant_witness :
    ((SysState.mk [] [] [] [resDown "a"]).collected : Multiset Result) =
      ((SysState.mk [] [] [] [resDown "a"]).collected : Multiset Result) :=
  C7_worker_count_irrelevant "w" fetchDown ["a"] ⟨[], [], [], [resDown "a"]⟩
    ⟨[], [], [], [resDown "a"]⟩ reachable_demo_one
    (terminal_done "w" fetchDown [resDown "a"]) reachable_demo_eight
    (terminal_done "w" fetchDown [resDown "a"])

/-- C8: with at least one worker and a non-empty link list the system
cannot run forever (every step strictly decreases `sysMeasure`) and
cannot get stuck short of completion: any reachable state from which no
step is possible has collected exactly `links.length` Results — the run
terminates and never hangs on the job source or the result sink. -/
theorem C8_terminates_no_deadlock (word : String) (fetch : String → FetchOutcome)
    (links : List String) (wc : Nat) (hwc : 1 ≤ wc) (_hne : links ≠ []) :
    (∀ s t, Step word fetch s t → sysMeasure t < sysMeasure s) ∧
    (∀ s, Reachable word fetch links wc s → Terminal word fetch s →
        s.collected.length = links.length) := by
  refine ⟨fun s t st => sysMeasure_step st, ?_⟩
  intro s hr ht
  have hcoll := terminal_collected hwc hr ht
  have hc := congrArg Multiset.card hcoll
  simpa using hc

/-- Witness for C8: the hypotheses hold for the concrete one-link,
one-worker batch. -/
theorem C8_terminates_no_deadlock_witness :
    (1 ≤ 1 ∧ (["a"] : List String) ≠ []) ∧
      ((∀ s t, Step "w" fetchDown s t → sysMeasure t < sysMeasure s) ∧
        (∀ s, Reachable "w" fetchDown ["a"] 1 s → Terminal "w" fetchDown s →
            s.collected.length = (["a"] : List String).length)) :=
  ⟨⟨Nat.le_refl 1, by simp⟩,
    C8_terminates_no_deadlock "w" fetchDown ["a"] 1 (Nat.le_refl 1) (by simp)⟩

/-- C9: `main` creates both channels with capacity `len(links)`
(lines 124-125); in every reachable state the jobs and results in
flight account exactly for the submitted links, so the buffered results
never exceed the sink's capacity, and while any worker still holds a
job there is strictly free capacity in the result sink: a worker's
Result push never blocks. -/
theorem C9_sink_capacity (word : String) (fetch : String → FetchOutcome)
    (links : List String) (wc : Nat) :
    linkChanCap links = links.length ∧ resultChanCap links = links.length ∧
    (∀ s, Reachable word fetch links wc s →
        s.collected.length + s.inChan.length +
          ((busyLinks s.workers).length + s.pending.length) = links.length) ∧
    (∀ s l, Reachable word fetch links wc s → WStatus.busy l ∈ s.workers →
        s.inChan.length < resultChanCap links) := by
  refine ⟨rfl, rfl, fun s hr => length_conservation hr, ?_⟩
  intro s l hr hb
  have h1 := length_conservation hr
  have h2 : 1 ≤ (busyLinks s.workers).length :=
    List.length_pos.mpr (List.ne_nil_of_mem (mem_busyLinks hb))
  unfold resultChanCap
  omega

/-- Witness for C9: in the reachable state where the single worker is
busy with link `a`, the result sink (capacity 1) still has room. -/
theorem C9_sink_capacity_witness :
    WStatus.busy "a" ∈ (SysState.mk [] [WStatus.busy "a"] [] []).workers ∧
      (SysState.mk [] [WStatus.busy "a"] [] []).inChan.length <
        resultChanCap ["a"] ∧
      (SysState.mk [] [] [] [resDown "a"]).collected.length +
          (SysState.mk [] [] [] [resDown "a"]).inChan.length +
          ((busyLinks (SysState.mk [] [] [] [resDown "a"]).workers).length +
            (SysState.mk [] [] [] [resDown "a"]).pending.length) =
        (["a"] : List String).length :=
  ⟨List.mem_singleton.mpr rfl,
    (C9_sink_capacity "w" fetchDown ["a"] 1).2.2.2
      ⟨[], [WStatus.busy "a"], [], []⟩ "a" reachable_demo_busy
      (List.mem_singleton.mpr rfl),
    (C9_sink_capacity "w" fetchDown ["a"] 1).2.2.1
      ⟨[], [], [], [resDown "a"]⟩ reachable_demo_one⟩

/-- C10: a worker that takes a job pushes exactly one Result for it:
every Result is labeled with its job's link, and across any step the
number of emitted results (`inChan` plus `collected`) grows by exactly
the number of jobs that left the outstanding set (busy workers plus
queued jobs), which never grows — never zero and never two Results for
one consumed job. -/
theorem C10_one_result_per_job (word : String) (fetch : String → FetchOutcome) :
    (∀ link, (processJob word fetch link).link = link) ∧
    (∀ s t, Step word fetch s t →
        t.inChan.length + t.collected.length +
            ((busyLinks t.workers).length + t.pending.length) =
          s.inChan.length + s.collected.length +
            ((busyLinks s.workers).length + s.pending.length) ∧
        (busyLinks t.workers).length + t.pending.length ≤
          (busyLinks s.workers).length + s.pending.length) := by
  refine ⟨processJob_link word fetch, ?_⟩
  intro s t st
  cases st <;> refine ⟨?_, ?_⟩ <;>
    (try simp [busyLinks_append, busyLinks]) <;> omega

/-- Witness for C10: the `finish` step of the busy worker emits exactly
one Result. -/
theorem C10_one_result_per_job_witness :
    Step "w" fetchDown ⟨[], [WStatus.busy "a"], [], []⟩
        ⟨[], [WStatus.idle], [resDown "a"], []⟩ ∧
      ((SysState.mk [] [WStatus.idle] [resDown "a"] []).inChan.length +
          (SysState.mk [] [WStatus.idle] [resDown "a"] []).collected.length +
          ((busyLinks (SysState.mk [] [WStatus.idle] [resDown "a"] []).workers).length +
            (SysState.mk [] [WStatus.idle] [resDown "a"] []).pending.length) =
        (SysState.mk [] [WStatus.busy "a"] [] []).inChan.length +
          (SysState.mk [] [WStatus.busy "a"] [] []).collected.length +
          ((busyLinks (SysState.mk [] [WStatus.busy "a"] [] []).workers).length +
            (SysState.mk [] [WStatus.busy "a"] [] []).pending.length) ∧
        (busyLinks (SysState.mk [] [WStatus.idle] [resDown "a"] []).workers).length +
            (SysState.mk [] [WStatus.idle] [resDown "a"] []).pending.length ≤
          (busyLinks (SysState.mk [] [WStatus.busy "a"] [] []).workers).length +
            (SysState.mk [] [WStatus.busy "a"] [] []).pending.length) :=
  ⟨Step.finish [] [] [] "a" [] [],
    (C10_one_result_per_job "w" fetchDown).2 ⟨[], [WStatus.busy "a"], [], []⟩
      ⟨[], [WStatus.idle], [resDown "a"], []⟩ (Step.finish [] [] [] "a" [] [])⟩

end Spinarak
